import Mathlib

/-!
Verification of the news-sentiment dashboard's data pipeline.

JavaScript strings are modelled as `List Char` (`Str`), JavaScript numbers
that the pipeline produces are modelled as `Option ℤ` (`none` stands for a
value that is not an integer, such as the `NaN` produced by `parseInt` on a
non-numeric field; the code only ever compares scores with `===` against
integer literals, so this is exact for every comparison the code performs).
Calendar dates are modelled as epoch-day numbers (`ℤ`), with explicit
conversions `daysFromCivil`/`civilFromDays` mirroring what a JavaScript
`Date` holds at local midnight.
-/

namespace NSS

/-- JavaScript strings, modelled as lists of characters. -/
abbrev Str := List Char

/-- The characters JavaScript's `String.prototype.trim` and the `\s` class
treat as whitespace (the ASCII ones; the exotic Unicode space characters do
not occur in this pipeline's data). -/
def jsWS (c : Char) : Bool :=
  c = ' ' || c = '\t' || c = '\n' || c = '\r' || c = '\x0b' || c = '\x0c'

/-- `String.prototype.trim`: drop whitespace from both ends. -/
def trimJS (s : Str) : Str :=
  ((s.dropWhile jsWS).reverse.dropWhile jsWS).reverse

/-- Prepend a character to the first piece of a split result. -/
def consHead (c : Char) : List Str → List Str
  | [] => [[c]]
  | h :: t => (c :: h) :: t

/-- `text.split(/\r?\n/)`: split on `\n`, consuming one `\r` immediately
before each `\n` as part of the separator.  Like the JavaScript original it
always returns at least one (possibly empty) piece. -/
def splitLinesJS : Str → List Str
  | [] => [[]]
  | '\r' :: '\n' :: rest => [] :: splitLinesJS rest
  | '\n' :: rest => [] :: splitLinesJS rest
  | c :: rest => consHead c (splitLinesJS rest)

/-- `text.split(sep)` for a single-character separator. -/
def splitOnCharJS (sep : Char) : Str → List Str
  | [] => [[]]
  | c :: rest =>
    if c = sep then [] :: splitOnCharJS sep rest
    else consHead c (splitOnCharJS sep rest)

/-- Digits of a natural number, most significant first (fuel-driven so that
the kernel can evaluate it; 32 divisions by ten cover every `ℕ` this
development ever prints). -/
def natDigitsAux : ℕ → ℕ → Str
  | 0, _ => []
  | fuel + 1, n =>
    if n = 0 then [] else natDigitsAux fuel (n / 10) ++ [Char.ofNat (48 + n % 10)]

/-- Decimal rendering of a natural number, as JavaScript would produce it. -/
def natToStr (n : ℕ) : Str :=
  if n = 0 then ['0'] else natDigitsAux 32 n

/-- Value of a (non-empty) digit string. -/
def natOfDigits (s : Str) : ℕ :=
  s.foldl (fun acc c => 10 * acc + (c.toNat - 48)) 0

/-- `parseInt(s, 10)`: skip leading whitespace, read an optional sign and a
longest digit prefix; `NaN` (here `none`) when no digit follows. -/
def jsParseInt (s : Str) : Option ℤ :=
  let s := s.dropWhile jsWS
  let signRest : ℤ × Str :=
    match s with
    | '-' :: r => (-1, r)
    | '+' :: r => (1, r)
    | r => (1, r)
  let ds := signRest.2.takeWhile (·.isDigit)
  if ds = [] then none else some (signRest.1 * (natOfDigits ds : ℤ))

/-- A row as the React state store holds it (`useNSSStore`'s
`SentimentRow = { date: string; score: number }`). -/
structure SentimentRow where
  date : Str
  score : Option ℤ
deriving DecidableEq, Repr

/-- One line of the fetched pipe-delimited payload, as `loadTicker` in
`_components/home/index.tsx` maps it: the text before the first `|` (trimmed)
becomes the date, `parseInt` of the trimmed remainder becomes the score. -/
def parsePipeLine (ln : Str) : SentimentRow :=
  let parts := splitOnCharJS '|' ln
  let date := trimJS (parts.headD [])
  let scoreStr :=
    match parts.drop 1 with
    | [] => ([] : Str)
    | s :: _ => trimJS s
  ⟨date, jsParseInt scoreStr⟩

/-- Ingestion in `loadTicker` (`index.tsx`): split the response text into
lines, keep the non-blank ones (`filter(Boolean)`), and map each through
`parsePipeLine`.  No validation of dates or scores happens here. -/
def ingest (text : Str) : List SentimentRow :=
  ((splitLinesJS text).filter (· ≠ [])).map parsePipeLine

/-- `String.prototype.toUpperCase` (ASCII; tickers are ASCII symbols). -/
def toUpperJS (s : Str) : Str := s.map Char.toUpper

/-- The zustand store `useNSSStore` of `_state_hooks/useNSSStore.ts`:
`{ exchange, ticker, data, loading, status }`. -/
structure Store where
  exchange : Str
  ticker : Str
  data : List SentimentRow
  loading : Bool
  status : Str
deriving DecidableEq, Repr

/-- The five setters the store exposes; zustand's `set({ field })` merges the
one named field into the state. -/
inductive StoreAction where
  | setExchange (v : Str)
  | setTicker (v : Str)
  | setData (d : List SentimentRow)
  | setLoading (b : Bool)
  | setStatus (m : Str)
deriving DecidableEq, Repr

/-- Effect of one setter on the store. -/
def applyAction (s : Store) : StoreAction → Store
  | .setExchange v => { s with exchange := v }
  | .setTicker v => { s with ticker := v }
  | .setData d => { s with data := d }
  | .setLoading b => { s with loading := b }
  | .setStatus m => { s with status := m }

/-- Run a sequence of setters left to right. -/
def runActions (s : Store) (acts : List StoreAction) : Store :=
  acts.foldl applyAction s

/-- Status shown when the selection guard fails (`index.tsx`). -/
def promptMsg : Str :=
  "Select an exchange and enter a ticker symbol to load data.".data

/-- `Loading {TICKER}...` status. -/
def loadingMsg (t : Str) : Str :=
  "Loading ".data ++ toUpperJS t ++ "...".data

/-- `{TICKER} loaded: {n} rows.` status. -/
def loadedMsg (t : Str) (n : ℕ) : Str :=
  toUpperJS t ++ " loaded: ".data ++ natToStr n ++ " rows.".data

/-- `No data found for {TICKER}.` status. -/
def noDataMsg (t : Str) : Str :=
  "No data found for ".data ++ toUpperJS t ++ ".".data

/-- How the awaited fetch settles: a 2xx response with a text body, a non-2xx
response (`!res.ok`, which `loadTicker` turns into a thrown error), or a
network exception. -/
inductive FetchOutcome where
  | success (text : Str)
  | httpError (status : ℕ)
  | networkError
deriving DecidableEq, Repr

/-- The sequence of store updates one run of `loadTicker` (`index.tsx`)
performs, as a function of the selection and of how the fetch settles.  The
guard is `if (!ticker || !exchange)` — falsy means the empty string, no
trimming.  On the success path the parsed rows are stored and the loaded
status is set; on `!res.ok` or a thrown exception the catch block sets the
no-data status and clears the rows; the finally block always resets
`loading`. -/
def loadTickerTrace (ticker exchange : Str) (outcome : FetchOutcome) :
    List StoreAction :=
  if ticker = [] ∨ exchange = [] then
    [.setStatus promptMsg, .setData []]
  else
    [.setLoading true, .setStatus (loadingMsg ticker)] ++
    (match outcome with
     | .success text =>
       [.setData (ingest text), .setStatus (loadedMsg ticker (ingest text).length)]
     | .httpError _ => [.setStatus (noDataMsg ticker), .setData []]
     | .networkError => [.setStatus (noDataMsg ticker), .setData []]) ++
    [.setLoading false]

/-- Final store after one settled run of `loadTicker` for the store's current
selection. -/
def loadTickerRun (s : Store) (outcome : FetchOutcome) : Store :=
  runActions s (loadTickerTrace s.ticker s.exchange outcome)

/-- Epoch-day number of a civil date with month in `1..12` (the standard
days-from-civil computation; day 0 is 1970-01-01, matching what a JavaScript
`Date` built from `(y, m-1, d)` holds). -/
def daysFromCivil (y m d : ℤ) : ℤ :=
  let y := y - (if m ≤ 2 then 1 else 0)
  let era := y.fdiv 400
  let yoe := y - era * 400
  let mp := (m + 9) % 12
  let doy := (153 * mp + 2) / 5 + d - 1
  let doe := yoe * 365 + yoe / 4 - yoe / 100 + doy
  era * 146097 + doe - 719468

/-- Civil `(year, month, day)` of an epoch-day number (inverse of
`daysFromCivil`). -/
def civilFromDays (z : ℤ) : ℤ × ℤ × ℤ :=
  let z := z + 719468
  let era := z.fdiv 146097
  let doe := z - era * 146097
  let yoe := (doe - doe / 1460 + doe / 36524 - doe / 146096) / 365
  let y := yoe + era * 400
  let doy := doe - (365 * yoe + yoe / 4 - yoe / 100)
  let mp := (5 * doy + 2) / 153
  let d := doy - (153 * mp + 2) / 5 + 1
  let m := mp + (if mp < 10 then 3 else -9)
  (y + (if m ≤ 2 then 1 else 0), m, d)

/-- `date.getFullYear()` of an epoch-day value. -/
def yearOfDay (z : ℤ) : ℤ := (civilFromDays z).1

/-- Epoch day of `new Date(y, m - 1, d)`: JavaScript normalizes out-of-range
month and day fields by rolling them over, which is plain arithmetic on
months and days. -/
def epochDayJS (y m d : ℤ) : ℤ :=
  let m0 := m - 1
  daysFromCivil (y + m0.fdiv 12) (m0.emod 12 + 1) 1 + (d - 1)

/-- d3's `%Y` directive while parsing: exactly four digits
(`/^\d{4}/` on a four-character window). -/
def parse4 : Str → Option (ℕ × Str)
  | a :: b :: c :: d :: rest =>
    if a.isDigit && b.isDigit && c.isDigit && d.isDigit then
      some (natOfDigits [a, b, c, d], rest)
    else none
  | _ => none

/-- d3's `%m`/`%d` directives while parsing: `/^\s*\d+/` applied to a
two-character window, so one or two digits, or one whitespace and one
digit. -/
def parse2 : Str → Option (ℕ × Str)
  | [] => none
  | [a] => if a.isDigit then some (natOfDigits [a], []) else none
  | a :: b :: rest =>
    if a.isDigit && b.isDigit then some (natOfDigits [a, b], rest)
    else if a.isDigit then some (natOfDigits [a], b :: rest)
    else if jsWS a && b.isDigit then some (natOfDigits [b], rest)
    else none

/-- `d3.timeParse('%Y-%m-%d')`: year, literal `-`, month, literal `-`, day,
and the whole string must be consumed; the resulting `Date` (returned here as
an epoch day) rolls out-of-range fields over instead of failing. -/
def parseDate (s : Str) : Option ℤ := do
  let (y, r1) ← parse4 s
  let r2 ← match r1 with
           | '-' :: r2 => some r2
           | _ => none
  let (m, r3) ← parse2 r2
  let r4 ← match r3 with
           | '-' :: r4 => some r4
           | _ => none
  let (d, r5) ← parse2 r4
  if r5 = [] then some (epochDayJS (y : ℤ) (m : ℤ) (d : ℤ)) else none

/-- Left-pad a digit string with zeros to a given width (d3's `pad`). -/
def padZeros (w : ℕ) (s : Str) : Str :=
  List.replicate (w - s.length) '0' ++ s

/-- `d3.timeFormat('%Y-%m-%d')` of an epoch day: zero-padded
`YYYY-MM-DD` (with `%Y` reducing the year modulo 10000 as d3 does). -/
def fmtDayJS (k : ℤ) : Str :=
  let c := civilFromDays k
  padZeros 4 (natToStr (c.1.emod 10000).toNat) ++ '-' ::
    padZeros 2 (natToStr c.2.1.toNat) ++ '-' ::
    padZeros 2 (natToStr c.2.2.toNat)

/-- The three sentiment categories. -/
inductive SentimentType where
  | neutral
  | positive
  | negative
deriving DecidableEq, Repr

/-- Per-bucket tallies `{ neutral, positive, negative }`. -/
structure Counts where
  neutral : ℕ
  positive : ℕ
  negative : ℕ
deriving DecidableEq, Repr

/-- Tally a list of scores the way every chart's rollup reducer does:
`filter(score === 0/1/2).length` per category. -/
def tallyScores (ss : List (Option ℤ)) : Counts :=
  ⟨(ss.filter (· = some 0)).length,
   (ss.filter (· = some 1)).length,
   (ss.filter (· = some 2)).length⟩

/-- `Math.max(c.neutral, c.positive, c.negative)`. -/
def maxCount (c : Counts) : ℕ :=
  max c.neutral (max c.positive c.negative)

/-- The majority classification of a non-empty bucket in
`calendar.tsx` (both revisions):
`max === c.positive ? 'positive' : max === c.negative ? 'negative' : 'neutral'`. -/
def typeOfCounts (c : Counts) : SentimentType :=
  if maxCount c = c.positive then .positive
  else if maxCount c = c.negative then .negative
  else .neutral

/-- Day classification including the missing-bucket default
(`if (!c) return dayType.set(key, 'neutral')`). -/
def dayClass : Option Counts → SentimentType
  | none => .neutral
  | some c => typeOfCounts c

/-- The calendar's per-date rollup: rows are grouped by their raw `date`
string and tallied; `counts.get(key)` is `none` when no row carries that
exact string. -/
def countsOfDate (rows : List SentimentRow) (key : Str) : Option Counts :=
  match rows.filter (·.date = key) with
  | [] => none
  | l => some (tallyScores (l.map (·.score)))

/-- A normalized month row of `stacked_bar.tsx`: the row's parsed date
rendered at month granularity, plus the untouched score.  `fmtMonth` strings
`YYYY-MM` are identified with month indices `12*y + (m-1)`, which is
injective on every date this dashboard can encounter. -/
structure MonthRow where
  month : ℤ
  score : Option ℤ
deriving DecidableEq, Repr

/-- Month index of an epoch day. -/
def monthIdxOfDay (k : ℤ) : ℤ :=
  let c := civilFromDays k
  12 * c.1 + (c.2.1 - 1)

/-- Normalization in `SentimentStackedBar`: parse each row's date, drop the
rows whose date does not parse, keep the score as is. -/
def monthRows (rows : List SentimentRow) : List MonthRow :=
  rows.filterMap fun r => (parseDate r.date).map fun k => ⟨monthIdxOfDay k, r.score⟩

/-- The rows `d3.rollup` groups under one month key. -/
def monthBucket (rows : List SentimentRow) (key : ℤ) : List MonthRow :=
  (monthRows rows).filter (·.month = key)

/-- The `BucketCounts` the stacked bar's rollup computes for one month. -/
def bucketCounts (rows : List SentimentRow) (key : ℤ) : Counts :=
  tallyScores ((monthBucket rows key).map (·.score))

/-- `score ∈ {0, 1, 2}`. -/
def validScore (s : Option ℤ) : Bool :=
  s = some 0 || s = some 1 || s = some 2

/-- The donut's category for one row
(`d.score===1 ? 'positive' : d.score===2 ? 'negative' : 'neutral'`): every
score that is neither 1 nor 2 — including `NaN` — counts as neutral. -/
def donutCategory (s : Option ℤ) : SentimentType :=
  if s = some 1 then .positive else if s = some 2 then .negative else .neutral

/-- `SentimentDonut`'s counts over the whole dataset. -/
def donutCounts (rows : List SentimentRow) : Counts :=
  ⟨(rows.filter (donutCategory ·.score = .neutral)).length,
   (rows.filter (donutCategory ·.score = .positive)).length,
   (rows.filter (donutCategory ·.score = .negative)).length⟩

/-- The successfully parsed dates of the row list, in order — what
`d3.extent` ranges over after `null` parses are skipped. -/
def parsedDates (rows : List SentimentRow) : List ℤ :=
  rows.filterMap (parseDate ·.date)

/-- All epoch days from `a` to `b` inclusive
(`d3.timeDays(a, d3.timeDay.offset(b, 1))`); empty when `b < a`. -/
def allDaysRange (a b : ℤ) : List ℤ :=
  (List.range (b + 1 - a).toNat).map (fun i : ℕ => a + (i : ℤ))

/-- The day range of the first `SentimentCalendar` revision: from the minimum
to the maximum parsed date ([] when no date parses — the original would crash
on an undefined extent, which the empty-data guard in `index.tsx`
prevents). -/
def v1AllDays (rows : List SentimentRow) : List ℤ :=
  match (parsedDates rows).min?, (parsedDates rows).max? with
  | some a, some b => allDaysRange a b
  | _, _ => []

/-- Day classification of an epoch day against the rows, as the calendar's
`dayType` map records it: look the formatted day up among the raw date
strings. -/
def dayClassOfDay (rows : List SentimentRow) (k : ℤ) : SentimentType :=
  dayClass (countsOfDate rows (fmtDayJS k))

/-- The distinct years of the parsed dates, ascending (the year-picker
revision's `Array.from(new Set(...)).sort((a, b) => a - b)`). -/
def yearsOf (rows : List SentimentRow) : List ℤ :=
  (((parsedDates rows).map yearOfDay).dedup).insertionSort (· ≤ ·)

/-- The initially selected year of the year-picker revision: the maximum year
present (`useState(maxYear)`).  The source falls back to the current wall
clock year when no date parses; no theorem below depends on that case, and it
is modelled as year 0. -/
def selectedYearInit (rows : List SentimentRow) : ℤ :=
  ((yearsOf rows).getLast?).getD 0

/-- The day range of the second (year-picker) `SentimentCalendar` revision:
every day of the selected year, `d3.timeDays(new Date(Y, 0, 1),
d3.timeDay.offset(new Date(Y, 11, 31), 1))`. -/
def v2AllDays (rows : List SentimentRow) : List ℤ :=
  let y := selectedYearInit rows
  allDaysRange (daysFromCivil y 1 1) (daysFromCivil y 12 31)

/-- A row of the legacy `_home/script.js` table state: both fields are raw
strings taken from the loaded CSV. -/
structure ExportRow where
  date : Str
  score : Str
deriving DecidableEq, Repr

/-- `array.join('\n')`. -/
def joinLines : List Str → Str
  | [] => []
  | [x] => x
  | x :: xs => x ++ '\n' :: joinLines xs

/-- The CSV line one row exports to: `${r.date},${r.score}`. -/
def lineOfRow (r : ExportRow) : Str :=
  r.date ++ ',' :: r.score

/-- The CSV text the Excel button builds:
`['Date,Sentiment score', ...data.map(r => `${r.date},${r.score}`)].join('\n')`. -/
def exportCSV (rows : List ExportRow) : Str :=
  joinLines ("Date,Sentiment score".data :: rows.map lineOfRow)

/-- A field character that cannot interfere with the CSV framing: not
whitespace, not a comma, not a double quote.  Dates `YYYY-MM-DD` and scores
`0/1/2` consist of such characters. -/
def safeChar (c : Char) : Bool :=
  !jsWS c && c ≠ ',' && c ≠ '"'

/-- `splitCSVLine` of `script.js`: split a line on commas outside double
quotes; a doubled quote inside a quoted stretch stands for a literal
quote. -/
def splitCSVLineAux : Str → Bool → List Str
  | [], _ => [[]]
  | '"' :: '"' :: rest, true => consHead '"' (splitCSVLineAux rest true)
  | '"' :: rest, inQ => splitCSVLineAux rest (!inQ)
  | ',' :: rest, false => [] :: splitCSVLineAux rest false
  | c :: rest, inQ => consHead c (splitCSVLineAux rest inQ)

/-- A CSV line's fields. -/
def splitCSVLine (line : Str) : List Str :=
  splitCSVLineAux line false

/-- One parsed CSV record, as the `headers.forEach((h, idx) => obj[h] =
fields[idx] ?? "")` object: an association list from header to field in
header order. -/
def csvRecord (headers : List Str) (line : Str) : List (Str × Str) :=
  let fields := splitCSVLine line
  headers.enum.map fun p => (p.2, (fields.get? p.1).getD [])

/-- `parseCSV` of `script.js`: trim the text, split into lines, take the
first line's fields as headers, and build one record per non-blank remaining
line. -/
def parseCSV (text : Str) : List Str × List (List (Str × Str)) :=
  match splitLinesJS (trimJS text) with
  | [] => ([], [])
  | hline :: rest =>
    let headers := splitCSVLine hline
    (headers, (rest.filter (· ≠ [])).map (csvRecord headers))

/-- JavaScript property read `r[k]` on a parsed record. -/
def recordGet (r : List (Str × Str)) (k : Str) : Option Str :=
  (r.find? (·.1 = k)).map (·.2)

/-- A row as `loadTicker` in `script.js` shapes it from a parsed CSV;
`Option` on both fields because `r[key]` is `undefined` when the key names no
column. -/
structure CSVRow where
  date : Option Str
  score : Option Str
deriving DecidableEq, Repr

/-- `String.prototype.toLowerCase` (ASCII). -/
def toLowerJS (s : Str) : Str := s.map Char.toLower

/-- The header mapping of `loadTicker` in `script.js`: find the column whose
lower-cased name is `date` (fallback literal `date`), likewise `sentiment`,
then read those two keys off every record. -/
def csvToRows (headers : List Str) (records : List (List (Str × Str))) :
    List CSVRow :=
  let dateKey := (headers.find? fun h => toLowerJS h = "date".data).getD "date".data
  let newsKey := (headers.find? fun h => toLowerJS h = "sentiment".data).getD "sentiment".data
  records.map fun r => ⟨recordGet r dateKey, recordGet r newsKey⟩

/-- Export the rows to CSV and parse the result back through the CSV row
parser — the round trip of §8 of the spec. -/
def roundTripCSV (rows : List ExportRow) : List CSVRow :=
  let p := parseCSV (exportCSV rows)
  csvToRows p.1 p.2

/-- One month of the stacked bar's dataset: month key plus its tallies,
(`{ month, neutral, positive, negative }`). -/
structure StackDatum where
  month : ℤ
  neutral : ℕ
  positive : ℕ
  negative : ℕ
deriving DecidableEq, Repr

/-- The month keys in first-occurrence order — the iteration order of the
rollup `Map`. -/
def monthKeysInOrder (rows : List SentimentRow) : List ℤ :=
  ((monthRows rows).map (·.month)).dedup

/-- The stacked bar's dataset: one `StackDatum` per month key, sorted
ascending by month (`Array.from(rollup, ...).sort((a, b) => a.month -
b.month)`).  The `parseMonth` validity guard in between drops exactly the
months whose `fmtMonth` rendering starts with a sign — months of negative
years, reachable only through month rollover below year 0 — i.e. the
negative month indices. -/
def datasetOf (rows : List SentimentRow) : List StackDatum :=
  (((monthKeysInOrder rows).filter (fun k => 0 ≤ k)).map fun k =>
    let c := bucketCounts rows k
    (⟨k, c.neutral, c.positive, c.negative⟩ : StackDatum)).insertionSort
      (fun a b => a.month ≤ b.month)

/-- One layer of `d3.stack()` with the zero-baseline offset: pair each datum
with its running baseline, producing `(y0, y1)` with `y1 = y0 + value`. -/
def stackAux : List (StackDatum → ℕ) → List ℕ → List StackDatum →
    List (List (ℕ × ℕ))
  | [], _, _ => []
  | f :: fs, base, ds =>
    let layer := List.zipWith (fun b d => (b, b + f d)) base ds
    layer :: stackAux fs (layer.map (·.2)) ds

/-- `d3.stack().keys(['neutral', 'positive', 'negative'])` over the dataset,
zero-baseline (`stackOffsetNone`): three layers of `(y0, y1)` points. -/
def stackSeries (ds : List StackDatum) : List (List (ℕ × ℕ)) :=
  stackAux [(·.neutral), (·.positive), (·.negative)]
    (List.replicate ds.length 0) ds

/-- Every stack bottom (`d[0]`) of the series. -/
def allBottoms (series : List (List (ℕ × ℕ))) : List ℕ :=
  (series.map (List.map (·.1))).flatten

/-- Every stack top (`d[1]`) of the series. -/
def allTops (series : List (List (ℕ × ℕ))) : List ℕ :=
  (series.map (List.map (·.2))).flatten

/-- `d3.max(dataset, d => d.neutral + d.positive + d.negative) ?? 0`. -/
def yMaxOf (ds : List StackDatum) : ℕ :=
  (ds.map fun d => d.neutral + d.positive + d.negative).foldr max 0

/-- `10 ^ z` over the rationals (real-valued arithmetic stands in for the
IEEE doubles of the JavaScript original; on the integer-scaled values the
charts produce the two agree). -/
def pow10 (z : ℤ) : ℚ :=
  if 0 ≤ z then ((10 : ℚ) ^ z.toNat) else ((10 : ℚ) ^ (-z).toNat)⁻¹

/-- `⌊log10 q⌋` for `q ≥ 1`, by repeated division (fuel-driven). -/
def logUp : ℕ → ℚ → ℕ
  | 0, _ => 0
  | fuel + 1, q => if q < 10 then 0 else logUp fuel (q / 10) + 1

/-- `-⌊log10 q⌋` for `0 < q < 1`, by repeated multiplication. -/
def logDown : ℕ → ℚ → ℕ
  | 0, _ => 0
  | fuel + 1, q => if 1 ≤ q then 0 else logDown fuel (q * 10) + 1

/-- `Math.floor(Math.log10(q))` for positive `q` (64 decimal orders of
magnitude of fuel — far beyond any chart extent). -/
def floorLog10 (q : ℚ) : ℤ :=
  if 1 ≤ q then (logUp 64 q : ℤ) else -(logDown 64 q : ℤ)

/-- The `1/2/5/10` factor d3's `tickIncrement` chooses: thresholds are
`sqrt 50`, `sqrt 10`, `sqrt 2`, compared here by squaring (the error ratio is
non-negative). -/
def tickFactor (error2 : ℚ) : ℚ :=
  if 50 ≤ error2 then 10 else if 10 ≤ error2 then 5 else if 2 ≤ error2 then 2
  else 1

/-- `d3.tickIncrement(start, stop, 10)`: the tick step for ten ticks, a
power of ten times 1, 2 or 5; negative return values encode the reciprocal
step as in the d3 source. -/
def tickIncrement (start stop : ℚ) : ℚ :=
  let step := (stop - start) / 10
  let power := floorLog10 step
  let error := step / pow10 power
  if 0 ≤ power then tickFactor (error ^ 2) * pow10 power
  else -pow10 (-power) / tickFactor (error ^ 2)

/-- The iteration inside `scale.nice(10)` of d3-scale: recompute the tick
increment and round the ends outward until the increment stabilizes, for at
most ten rounds (`none` when it never stabilizes — d3 then leaves the domain
unchanged). -/
def niceLoop : ℕ → ℚ → ℚ → Option ℚ → Option (ℚ × ℚ)
  | 0, _, _, _ => none
  | fuel + 1, start, stop, prestep =>
    if prestep = some (tickIncrement start stop) then some (start, stop)
    else if 0 < tickIncrement start stop then
      niceLoop fuel
        ((⌊start / tickIncrement start stop⌋ : ℚ) * tickIncrement start stop)
        ((⌈stop / tickIncrement start stop⌉ : ℚ) * tickIncrement start stop)
        (some (tickIncrement start stop))
    else if tickIncrement start stop < 0 then
      niceLoop fuel
        ((⌈start * tickIncrement start stop⌉ : ℚ) / tickIncrement start stop)
        ((⌊stop * tickIncrement start stop⌋ : ℚ) / tickIncrement start stop)
        (some (tickIncrement start stop))
    else none

/-- `d3.scaleLinear().domain([a, b]).nice()`: the domain after nice
rounding. -/
def niceDomain (a b : ℚ) : ℚ × ℚ :=
  if b < a then
    match niceLoop 10 b a none with
    | some p => (p.2, p.1)
    | none => (a, b)
  else
    match niceLoop 10 a b none with
    | some p => p
    | none => (a, b)

/-- The stacked bar's rendering Y-domain:
`d3.scaleLinear().domain([0, yMax]).nice()`. -/
def yDomainStackedBar (ds : List StackDatum) : ℚ × ℚ :=
  niceDomain 0 (yMaxOf ds)

/-- A store with a valid selection, used to instantiate the theorems about
`loadTicker`. -/
def sampleStore : Store :=
  ⟨"NASDAQ".data, "aapl".data, [], false, []⟩

/-- Two rows one year apart — input for the calendar range results. -/
def rowsTwoYears : List SentimentRow :=
  [⟨"2023-06-01".data, some 0⟩, ⟨"2024-06-01".data, some 0⟩]

/-- A single row whose score lies outside `{0, 1, 2}`. -/
def rowsScore3 : List SentimentRow :=
  [⟨"2024-01-15".data, some 3⟩]

/-- Twenty-three same-day neutral rows — input for the Y-domain results. -/
def rows23 : List SentimentRow :=
  List.replicate 23 ⟨"2024-01-05".data, some 0⟩

/-- Two rows in two months — input for the stacking results. -/
def rowsTwoMonths : List SentimentRow :=
  [⟨"2024-03-05".data, some 1⟩, ⟨"2024-01-05".data, some 2⟩]

section Theorems

/-- C1 (counterexample): a bucket with `neutral = positive = 1 > negative`
has a tie for the largest count, yet the code classifies it Positive, not
Neutral as the claim states. -/
theorem majorityTieCounterexample :
    dayClass (some ⟨1, 1, 0⟩) = .positive
    ∧ SentimentType.positive ≠ SentimentType.neutral := by
  decide

/-- C1 (amended): the majority classification returns Positive exactly when
the positive count is a (not necessarily strict) maximum, Negative exactly
when the negative count beats positive and is at least neutral, and Neutral
exactly when the neutral count is strictly largest; a day with no bucket
defaults to Neutral.  A strictly largest category is therefore always
picked, but ties resolve by the priority positive > negative > neutral, not
to Neutral. -/
theorem majorityClassPriority (c : Counts) :
    dayClass none = .neutral
    ∧ (typeOfCounts c = .positive ↔
        c.neutral ≤ c.positive ∧ c.negative ≤ c.positive)
    ∧ (typeOfCounts c = .negative ↔
        c.positive < c.negative ∧ c.neutral ≤ c.negative)
    ∧ (typeOfCounts c = .neutral ↔
        c.positive < c.neutral ∧ c.negative < c.neutral) := by
  obtain ⟨n, p, g⟩ := c
  refine ⟨rfl, ?_, ?_, ?_⟩ <;>
    simp only [typeOfCounts, maxCount] <;>
    split_ifs with h1 h2 <;>
    simp_all <;> omega

/-- C2 (counterexample): the line `2024-01-01|abc` — whose score parses to
`NaN` — is stored by ingestion as a row, where the claim says no row is
produced. -/
theorem ingestStoresInvalidScore :
    ingest "2024-01-01|abc".data = [⟨"2024-01-01".data, none⟩]
    ∧ ingest "2024-01-01|abc".data ≠ [] := by
  decide

/-- C2 (amended): ingestion performs no validation at all — every non-blank
line of the payload is stored as exactly one row, including rows with
unparseable dates or non-finite scores; rows with unparseable dates are
instead dropped later, inside the charts' normalization step. -/
theorem ingestKeepsEveryNonBlankLine (text : Str) :
    (ingest text).length = ((splitLinesJS text).filter (· ≠ [])).length
    ∧ (∀ ln ∈ splitLinesJS text, ln ≠ [] → parsePipeLine ln ∈ ingest text)
    ∧ (monthRows (ingest text)).length =
        ((ingest text).filter fun r => (parseDate r.date).isSome).length := by
  refine ⟨by simp [ingest], fun ln hmem hne => ?_, ?_⟩
  · exact List.mem_map_of_mem _ (List.mem_filter.2 ⟨hmem, by simpa using hne⟩)
  · induction ingest text with
    | nil => rfl
    | cons r t ih =>
      simp only [monthRows, List.filterMap_cons, List.filter_cons] at *
      cases hp : parseDate r.date <;> simp_all [monthRows]

/-- The three per-category filters of a rollup reducer sum to the number of
rows whose score is a valid category. -/
theorem tallyScores_sum (ss : List (Option ℤ)) :
    (tallyScores ss).neutral + (tallyScores ss).positive +
      (tallyScores ss).negative = (ss.filter validScore).length := by
  induction ss with
  | nil => rfl
  | cons s t ih =>
    simp only [tallyScores, List.filter_cons] at *
    by_cases h0 : s = some 0 <;> by_cases h1 : s = some 1 <;>
      by_cases h2 : s = some 2 <;>
      simp_all [validScore] <;> omega

/-- The donut's three category filters partition the rows. -/
theorem donutCounts_sum (rows : List SentimentRow) :
    (donutCounts rows).neutral + (donutCounts rows).positive +
      (donutCounts rows).negative = rows.length := by
  induction rows with
  | nil => rfl
  | cons r t ih =>
    simp only [donutCounts, List.filter_cons] at *
    rcases h : donutCategory r.score <;> simp_all <;> omega

/-- C3 (counterexample): one row with a parseable date and score `3` maps to
the January 2024 bucket, so the claim demands a tally sum of `1`; the code's
tally sum over that bucket is `0`. -/
theorem bucketTallyCounterexample :
    (monthBucket rowsScore3 24288).length = 1
    ∧ (bucketCounts rowsScore3 24288).neutral +
        (bucketCounts rowsScore3 24288).positive +
        (bucketCounts rowsScore3 24288).negative = 0
    ∧ (0 : ℕ) ≠ 1 := by
  decide

/-- C3 (amended): for every bucket of the stacked bar's aggregation,
`neutral + positive + negative` equals the number of normalized rows mapped
to that bucket *whose score lies in {0, 1, 2}* — rows with other scores
reach the bucket but are counted by no category.  The donut counts every
row (scores outside the categories land in its neutral bin), so there the
sum is the full row count. -/
theorem bucketTallySum (rows : List SentimentRow) (key : ℤ) :
    (bucketCounts rows key).neutral + (bucketCounts rows key).positive +
      (bucketCounts rows key).negative
      = ((monthBucket rows key).filter fun r => validScore r.score).length
    ∧ (donutCounts rows).neutral + (donutCounts rows).positive +
      (donutCounts rows).negative = rows.length := by
  refine ⟨?_, donutCounts_sum rows⟩
  rw [bucketCounts, tallyScores_sum, List.filter_map, List.length_map]
  rfl

/-- C9 (confirmed): each of the five zustand setters replaces exactly its
named field and leaves the other four fields of the store unchanged. -/
theorem settersFrame (s : Store) (v : Str) (d : List SentimentRow) (b : Bool) :
    ((applyAction s (.setExchange v)).exchange = v
      ∧ (applyAction s (.setExchange v)).ticker = s.ticker
      ∧ (applyAction s (.setExchange v)).data = s.data
      ∧ (applyAction s (.setExchange v)).loading = s.loading
      ∧ (applyAction s (.setExchange v)).status = s.status)
    ∧ ((applyAction s (.setTicker v)).ticker = v
      ∧ (applyAction s (.setTicker v)).exchange = s.exchange
      ∧ (applyAction s (.setTicker v)).data = s.data
      ∧ (applyAction s (.setTicker v)).loading = s.loading
      ∧ (applyAction s (.setTicker v)).status = s.status)
    ∧ ((applyAction s (.setData d)).data = d
      ∧ (applyAction s (.setData d)).exchange = s.exchange
      ∧ (applyAction s (.setData d)).ticker = s.ticker
      ∧ (applyAction s (.setData d)).loading = s.loading
      ∧ (applyAction s (.setData d)).status = s.status)
    ∧ ((applyAction s (.setLoading b)).loading = b
      ∧ (applyAction s (.setLoading b)).exchange = s.exchange
      ∧ (applyAction s (.setLoading b)).ticker = s.ticker
      ∧ (applyAction s (.setLoading b)).data = s.data
      ∧ (applyAction s (.setLoading b)).status = s.status)
    ∧ ((applyAction s (.setStatus v)).status = v
      ∧ (applyAction s (.setStatus v)).exchange = s.exchange
      ∧ (applyAction s (.setStatus v)).ticker = s.ticker
      ∧ (applyAction s (.setStatus v)).data = s.data
      ∧ (applyAction s (.setStatus v)).loading = s.loading) :=
  ⟨⟨rfl, rfl, rfl, rfl, rfl⟩, ⟨rfl, rfl, rfl, rfl, rfl⟩,
   ⟨rfl, rfl, rfl, rfl, rfl⟩, ⟨rfl, rfl, rfl, rfl, rfl⟩,
   ⟨rfl, rfl, rfl, rfl, rfl⟩⟩

/-- C6 (confirmed): whenever the fetch fails — a non-2xx response or a
network exception — `loadTicker` sets the status to
`No data found for {TICKER}.` with the ticker upper-cased, and clears the
rows. -/
theorem fetchFailureClearsRows (s : Store) (o : FetchOutcome)
    (ht : s.ticker ≠ []) (he : s.exchange ≠ [])
    (ho : o = .networkError ∨ ∃ n, o = .httpError n) :
    (loadTickerRun s o).status = noDataMsg s.ticker
    ∧ (loadTickerRun s o).data = [] := by
  rcases ho with rfl | ⟨n, rfl⟩ <;>
    simp [loadTickerRun, loadTickerTrace, runActions, applyAction, ht, he]

/-- Witness for C6 at a concrete store: the failed fetch for ticker `aapl`
ends with status `No data found for AAPL.` and no rows. -/
theorem fetchFailureClearsRowsWitness :
    (loadTickerRun sampleStore .networkError).status =
      "No data found for AAPL.".data
    ∧ (loadTickerRun sampleStore .networkError).data = [] := by
  have h := fetchFailureClearsRows sampleStore .networkError
    (by decide) (by decide) (Or.inl rfl)
  exact ⟨h.1.trans (by decide), h.2⟩

/-- C7 (counterexample): a whitespace-only ticker is empty after trimming,
yet the code's guard (which does not trim) lets it through and enters
Loading — the claim says the machine must stay in Empty. -/
theorem guardNoTrimCounterexample :
    trimJS " ".data = []
    ∧ StoreAction.setLoading true ∈
        loadTickerTrace " ".data "NASDAQ".data .networkError := by
  decide

/-- C7 (amended): `loadTicker` enters Loading (and issues the fetch) exactly
when ticker and exchange are both non-empty strings — no trimming is
applied, so a whitespace-only selection still triggers a fetch; otherwise
the run performs no loading transition at all, sets the prompting status and
clears the rows. -/
theorem selectionGuard (t e : Str) (o : FetchOutcome) :
    (t = [] ∨ e = [] →
      loadTickerTrace t e o = [.setStatus promptMsg, .setData []]
      ∧ ∀ b, StoreAction.setLoading b ∉ loadTickerTrace t e o)
    ∧ (t ≠ [] → e ≠ [] →
      (loadTickerTrace t e o).head? = some (.setLoading true)) := by
  constructor
  · intro hg
    rw [loadTickerTrace.eq_def, if_pos hg]
    exact ⟨rfl, by simp⟩
  · intro ht he
    rcases o <;> simp [loadTickerTrace, ht, he]

/-- Witness for C7 at a concrete selection: with an empty ticker the run is
just the prompt-and-clear pair, and with `aapl`/`NASDAQ` it starts by
setting `loading` to true. -/
theorem selectionGuardWitness :
    (loadTickerTrace [] "NASDAQ".data .networkError =
        [.setStatus promptMsg, .setData []]
      ∧ ∀ b, StoreAction.setLoading b ∉
          loadTickerTrace [] "NASDAQ".data .networkError)
    ∧ (loadTickerTrace "aapl".data "NASDAQ".data .networkError).head? =
        some (.setLoading true) :=
  ⟨(selectionGuard [] "NASDAQ".data .networkError).1 (Or.inl rfl),
   (selectionGuard "aapl".data "NASDAQ".data .networkError).2
     (by decide) (by decide)⟩

/-- C10 (confirmed): every run of `loadTicker` that passes the selection
guard sets `loading` to true as its first store update, its last loading
update is `false` (the finally block), and the settled store has
`loading = false` on every completion path. -/
theorem loadingLifecycle (s : Store) (o : FetchOutcome)
    (ht : s.ticker ≠ []) (he : s.exchange ≠ []) :
    (loadTickerTrace s.ticker s.exchange o).head? = some (.setLoading true)
    ∧ (loadTickerTrace s.ticker s.exchange o).getLast? =
        some (.setLoading false)
    ∧ (loadTickerRun s o).loading = false := by
  rcases o <;>
    simp [loadTickerTrace, loadTickerRun, runActions, applyAction, ht, he]

/-- Witness for C10 at a concrete store and a successful fetch. -/
theorem loadingLifecycleWitness :
    (loadTickerTrace sampleStore.ticker sampleStore.exchange
        (.success "2024-01-01|1".data)).head? = some (.setLoading true)
    ∧ (loadTickerTrace sampleStore.ticker sampleStore.exchange
        (.success "2024-01-01|1".data)).getLast? = some (.setLoading false)
    ∧ (loadTickerRun sampleStore (.success "2024-01-01|1".data)).loading =
        false :=
  loadingLifecycle sampleStore (.success "2024-01-01|1".data)
    (by decide) (by decide)

/-- Membership in an inclusive day range. -/
theorem mem_allDaysRange (a b k : ℤ) :
    k ∈ allDaysRange a b ↔ a ≤ k ∧ k ≤ b := by
  simp only [allDaysRange, List.mem_map, List.mem_range]
  constructor
  · rintro ⟨i, hi, rfl⟩
    omega
  · rintro ⟨h1, h2⟩
    exact ⟨(k - a).toNat, by omega, by omega⟩

/-- C4 (amended): in the extent-based calendar revision, the day map has an
entry for every calendar day between the least and greatest parsed date
inclusive, and a day carrying no row classifies Neutral; the year-picker
revision instead builds its map over exactly the days of the initially
selected (maximum) year, so days of other years are absent even when they
lie inside `[D_min, D_max]`. -/
theorem calendarDayRange (rows : List SentimentRow) (a b k : ℤ)
    (ha : (parsedDates rows).min? = some a)
    (hb : (parsedDates rows).max? = some b)
    (h1 : a ≤ k) (h2 : k ≤ b) :
    k ∈ v1AllDays rows
    ∧ (rows.filter (fun r => r.date = fmtDayJS k) = [] →
        dayClassOfDay rows k = .neutral)
    ∧ (∀ j, j ∈ v2AllDays rows ↔
        daysFromCivil (selectedYearInit rows) 1 1 ≤ j
        ∧ j ≤ daysFromCivil (selectedYearInit rows) 12 31) := by
  refine ⟨?_, ?_, ?_⟩
  · rw [v1AllDays, ha, hb]
    exact (mem_allDaysRange a b k).2 ⟨h1, h2⟩
  · intro hempty
    rw [dayClassOfDay, countsOfDate, hempty]
    rfl
  · intro j
    exact mem_allDaysRange _ _ j

/-- Witness for C4 at the two-row input spanning 2023-06-01..2024-06-01:
its first day is in the extent-based map, an empty day classifies Neutral,
and the year-picker map is exactly the selected year's range. -/
theorem calendarDayRangeWitness :
    daysFromCivil 2023 6 1 ∈ v1AllDays rowsTwoYears
    ∧ (rowsTwoYears.filter
        (fun r => r.date = fmtDayJS (daysFromCivil 2023 6 1)) = [] →
        dayClassOfDay rowsTwoYears (daysFromCivil 2023 6 1) = .neutral)
    ∧ (∀ j, j ∈ v2AllDays rowsTwoYears ↔
        daysFromCivil (selectedYearInit rowsTwoYears) 1 1 ≤ j
        ∧ j ≤ daysFromCivil (selectedYearInit rowsTwoYears) 12 31) :=
  calendarDayRange rowsTwoYears (daysFromCivil 2023 6 1)
    (daysFromCivil 2024 6 1) (daysFromCivil 2023 6 1)
    (by decide) (by decide) (by decide) (by decide)

/-- C4 (counterexample): for rows spanning 2023-06-01..2024-06-01 the
year-picker calendar selects 2024 initially, and its day map has no entry
for 2023-06-01 although that day lies in `[D_min, D_max]`. -/
theorem calendarYearPickerCounterexample :
    (parsedDates rowsTwoYears).min? = some (daysFromCivil 2023 6 1)
    ∧ (parsedDates rowsTwoYears).max? = some (daysFromCivil 2024 6 1)
    ∧ selectedYearInit rowsTwoYears = 2024
    ∧ daysFromCivil 2023 6 1 ∉ v2AllDays rowsTwoYears := by
  decide

/-- One stacking step over a baseline that is itself a function of the
datum. -/
theorem zipWith_baseline (u f : StackDatum → ℕ) (ds : List StackDatum) :
    List.zipWith (fun b d => (b, b + f d)) (ds.map u) ds
      = ds.map (fun d => (u d, u d + f d)) := by
  induction ds with
  | nil => rfl
  | cons d t ih => simp [ih]

/-- Closed form of the three zero-baseline layers: `(y0, y1)` pairs with
`y1 - y0` the category's count, stacked neutral, then positive, then
negative. -/
theorem stackSeries_layers (ds : List StackDatum) :
    stackSeries ds =
      [ds.map fun d => (0, d.neutral),
       ds.map fun d => (d.neutral, d.neutral + d.positive),
       ds.map fun d => (d.neutral + d.positive,
         d.neutral + d.positive + d.negative)] := by
  have h0 : List.replicate ds.length 0 = ds.map (fun _ => 0) :=
    (List.map_const ds 0).symm
  unfold stackSeries
  rw [h0]
  simp only [stackAux, zipWith_baseline (fun _ => 0) (·.neutral),
    List.map_map, Function.comp_def, Nat.zero_add,
    zipWith_baseline (·.neutral) (·.positive),
    zipWith_baseline (fun d => d.neutral + d.positive) (·.negative)]

/-- Every element is bounded by the zero-based running maximum. -/
theorem le_foldr_max (l : List ℕ) : ∀ x ∈ l, x ≤ l.foldr max 0 := by
  induction l with
  | nil => simp
  | cons a t ih =>
    intro x hx
    rcases List.mem_cons.1 hx with rfl | hx
    · exact le_max_left _ _
    · exact le_trans (ih x hx) (le_max_right _ _)

/-- The zero-based running maximum of a non-empty list of naturals is
attained. -/
theorem foldr_max_mem (l : List ℕ) (h : l ≠ []) : l.foldr max 0 ∈ l := by
  induction l with
  | nil => exact absurd rfl h
  | cons a t ih =>
    rcases t with _ | ⟨b, t⟩
    · simp
    · rcases max_choice a ((b :: t).foldr max 0) with he | he <;>
        simp only [List.foldr_cons] at *
      · rw [he]; exact List.mem_cons_self _ _
      · rw [he]; exact List.mem_cons_of_mem _ (ih (by simp))

/-- The stack bottoms, layer by layer: zeros, then neutral, then
neutral + positive. -/
theorem allBottoms_eq (ds : List StackDatum) :
    allBottoms (stackSeries ds) =
      ds.map (fun _ => 0) ++ ds.map (fun d => d.neutral) ++
        ds.map (fun d => d.neutral + d.positive) := by
  rw [stackSeries_layers]
  simp [allBottoms, Function.comp_def]

/-- The stack tops, layer by layer: neutral, then neutral + positive, then
the full total. -/
theorem allTops_eq (ds : List StackDatum) :
    allTops (stackSeries ds) =
      ds.map (fun d => d.neutral) ++
        ds.map (fun d => d.neutral + d.positive) ++
        ds.map (fun d => d.neutral + d.positive + d.negative) := by
  rw [stackSeries_layers]
  simp [allTops, Function.comp_def]

/-- The least stack bottom of a non-empty zero-baseline series is 0. -/
theorem allBottoms_min (ds : List StackDatum) (h : ds ≠ []) :
    (allBottoms (stackSeries ds)).min? = some 0 := by
  obtain ⟨d, hd⟩ := List.exists_mem_of_ne_nil ds h
  rw [List.min?_eq_some_iff']
  refine ⟨?_, fun b _ => Nat.zero_le b⟩
  rw [allBottoms_eq]
  exact List.mem_append_left _
    (List.mem_append_left _ (List.mem_map_of_mem _ hd))

/-- The largest stack top of a non-empty zero-baseline series is the largest
per-bucket total — the `yMax` the stacked bar computes. -/
theorem allTops_max (ds : List StackDatum) (h : ds ≠ []) :
    (allTops (stackSeries ds)).max? = some (yMaxOf ds) := by
  have hne : ds.map (fun d => d.neutral + d.positive + d.negative) ≠ [] := by
    simpa using h
  rw [List.max?_eq_some_iff']
  constructor
  · rw [allTops_eq]
    exact List.mem_append_right _ (foldr_max_mem _ hne)
  · intro b hb
    rw [allTops_eq] at hb
    have bound : ∀ d ∈ ds, d.neutral + d.positive + d.negative ≤ yMaxOf ds :=
      fun d hd => le_foldr_max _ _ (List.mem_map_of_mem _ hd)
    rcases List.mem_append.1 hb with h12 | h3
    · rcases List.mem_append.1 h12 with h1 | h2
      · obtain ⟨d, hd, rfl⟩ := List.mem_map.1 h1
        exact le_trans (by omega) (bound d hd)
      · obtain ⟨d, hd, rfl⟩ := List.mem_map.1 h2
        exact le_trans (by omega) (bound d hd)
    · obtain ⟨d, hd, rfl⟩ := List.mem_map.1 h3
      exact bound d hd

/-- C8 (amended): the stacked bar stacks the categories in the fixed order
neutral, positive, negative over buckets sorted ascending by month, each
point's `y1 - y0` is that category's count and the first layer starts at 0;
the least stack bottom is 0 and the largest stack top is the maximum bucket
total, but the rendering Y-domain applies d3's nice rounding to
`[min bottom, max top]` and can therefore be strictly larger than it. -/
theorem stackSeriesProps (rows : List SentimentRow)
    (h : datasetOf rows ≠ []) :
    List.Sorted (fun a b => a.month ≤ b.month) (datasetOf rows)
    ∧ stackSeries (datasetOf rows) =
        [(datasetOf rows).map fun d => (0, d.neutral),
         (datasetOf rows).map fun d => (d.neutral, d.neutral + d.positive),
         (datasetOf rows).map fun d => (d.neutral + d.positive,
           d.neutral + d.positive + d.negative)]
    ∧ (allBottoms (stackSeries (datasetOf rows))).min? = some 0
    ∧ (allTops (stackSeries (datasetOf rows))).max? =
        some (yMaxOf (datasetOf rows))
    ∧ yDomainStackedBar (datasetOf rows) =
        niceDomain
          (((allBottoms (stackSeries (datasetOf rows))).min?).getD 0)
          (((allTops (stackSeries (datasetOf rows))).max?).getD 0) := by
  haveI : IsTotal StackDatum (fun a b => a.month ≤ b.month) :=
    ⟨fun a b => le_total a.month b.month⟩
  haveI : IsTrans StackDatum (fun a b => a.month ≤ b.month) :=
    ⟨fun _ _ _ => le_trans⟩
  refine ⟨List.sorted_insertionSort _ _, stackSeries_layers _,
    allBottoms_min _ h, allTops_max _ h, ?_⟩
  rw [allBottoms_min _ h, allTops_max _ h]
  rfl

/-- Witness for C8 at a concrete two-month input. -/
theorem stackSeriesPropsWitness :
    List.Sorted (fun a b => a.month ≤ b.month) (datasetOf rowsTwoMonths)
    ∧ stackSeries (datasetOf rowsTwoMonths) =
        [(datasetOf rowsTwoMonths).map fun d => (0, d.neutral),
         (datasetOf rowsTwoMonths).map fun d =>
           (d.neutral, d.neutral + d.positive),
         (datasetOf rowsTwoMonths).map fun d => (d.neutral + d.positive,
           d.neutral + d.positive + d.negative)]
    ∧ (allBottoms (stackSeries (datasetOf rowsTwoMonths))).min? = some 0
    ∧ (allTops (stackSeries (datasetOf rowsTwoMonths))).max? =
        some (yMaxOf (datasetOf rowsTwoMonths))
    ∧ yDomainStackedBar (datasetOf rowsTwoMonths) =
        niceDomain
          (((allBottoms (stackSeries (datasetOf rowsTwoMonths))).min?).getD 0)
          (((allTops (stackSeries (datasetOf rowsTwoMonths))).max?).getD 0) :=
  stackSeriesProps rowsTwoMonths (by decide)

/-- `logUp` is 0 as soon as its argument is below ten. -/
theorem logUp_eq_zero (fuel : ℕ) (q : ℚ) (h : q < 10) : logUp fuel q = 0 := by
  cases fuel <;> simp [logUp, h]

/-- `floorLog10` is 0 on `[1, 10)`. -/
theorem floorLog10_eq_zero (q : ℚ) (h1 : 1 ≤ q) (h2 : q < 10) :
    floorLog10 q = 0 := by
  rw [floorLog10, if_pos h1, logUp_eq_zero _ _ h2]
  rfl

/-- `10 ^ 0 = 1`. -/
theorem pow10_zero : pow10 0 = 1 := by
  rw [pow10, if_pos le_rfl]
  norm_num

/-- `tickIncrement` is 2 whenever the raw step lies in `[sqrt 2, sqrt 10)`
(squared bounds `[2, 10)`). -/
theorem tickIncrement_eq_two (start stop : ℚ)
    (h1 : 1 ≤ (stop - start) / 10) (h2 : (stop - start) / 10 < 10)
    (h3 : 2 ≤ ((stop - start) / 10) ^ 2)
    (h4 : ¬ 10 ≤ ((stop - start) / 10) ^ 2) :
    tickIncrement start stop = 2 := by
  simp only [tickIncrement]
  rw [floorLog10_eq_zero _ h1 h2, if_pos (le_refl (0 : ℤ)), pow10_zero,
    div_one, tickFactor,
    if_neg (fun h => h4 (le_trans (by norm_num) h)), if_neg h4, if_pos h3]
  norm_num

/-- One nice-rounding pass on `[0, 23]` widens the top to 24, where the
increment then stabilizes. -/
theorem niceLoop_0_23 : niceLoop 10 0 23 none = some (0, 24) := by
  have t1 : tickIncrement 0 23 = 2 :=
    tickIncrement_eq_two 0 23 (by norm_num) (by norm_num) (by norm_num)
      (by norm_num)
  have t2 : tickIncrement 0 24 = 2 :=
    tickIncrement_eq_two 0 24 (by norm_num) (by norm_num) (by norm_num)
      (by norm_num)
  have hceil : ⌈(23 : ℚ) / 2⌉ = (12 : ℤ) := by
    rw [Int.ceil_eq_iff]
    norm_num
  show niceLoop (9 + 1) 0 23 none = some (0, 24)
  rw [niceLoop, t1, if_neg (by simp : ¬(none : Option ℚ) = some 2),
    if_pos (by norm_num : (0 : ℚ) < 2), hceil,
    show ((⌊(0 : ℚ) / 2⌋ : ℚ) * 2) = 0 by norm_num,
    show (((12 : ℤ) : ℚ) * 2) = 24 by norm_num]
  show niceLoop (8 + 1) 0 24 (some 2) = some (0, 24)
  rw [niceLoop, t2, if_pos rfl]

/-- `nice([0, 23])` is `[0, 24]`. -/
theorem niceDomain_0_23 : niceDomain 0 23 = (0, 24) := by
  simp only [niceDomain]
  rw [if_neg (by norm_num : ¬(23 : ℚ) < 0), niceLoop_0_23]

/-- C8 (counterexample): for 23 same-month rows the stack bottoms reach down
to 0 and the tops up to 23, yet the rendered Y-domain is `[0, 24]` — nice
rounding widens it past `[min bottom, max top]`, contradicting the claim
that the Y-domain *is* that interval. -/
theorem yDomainNiceCounterexample :
    (allBottoms (stackSeries (datasetOf rows23))).min? = some 0
    ∧ (allTops (stackSeries (datasetOf rows23))).max? = some 23
    ∧ yDomainStackedBar (datasetOf rows23) = ((0 : ℚ), (24 : ℚ))
    ∧ ((0 : ℚ), (24 : ℚ)) ≠ ((0 : ℚ), (23 : ℚ)) := by
  have hds : datasetOf rows23 = [⟨24288, 23, 0, 0⟩] := by decide
  refine ⟨by rw [hds]; decide, by rw [hds]; decide, ?_, ?_⟩
  · simp only [yDomainStackedBar, hds]
    have hy : yMaxOf [⟨24288, 23, 0, 0⟩] = 23 := by decide
    rw [hy, (by norm_num : ((23 : ℕ) : ℚ) = 23)]
    exact niceDomain_0_23
  · intro hEq
    have h2 := congrArg Prod.snd hEq
    norm_num at h2

/-- A safe character is none of the framing characters. -/
theorem safeChar_spec (c : Char) (h : safeChar c = true) :
    jsWS c = false ∧ c ≠ ',' ∧ c ≠ '"' ∧ c ≠ '\n' ∧ c ≠ '\r' := by
  simp only [safeChar, Bool.and_eq_true, Bool.not_eq_true', decide_eq_true_eq]
    at h
  refine ⟨h.1.1, h.1.2, h.2, ?_, ?_⟩ <;>
    rintro rfl <;> simp [jsWS] at h

/-- A CSV splitter step outside quotes on an unexceptional character. -/
theorem splitCSVLineAux_cons_safe (c : Char) (s : Str)
    (hc : c ≠ '"') (hcc : c ≠ ',') :
    splitCSVLineAux (c :: s) false = consHead c (splitCSVLineAux s false) := by
  rw [splitCSVLineAux.eq_def]
  split <;> simp_all

/-- A line of safe characters is one single CSV field. -/
theorem splitCSVLineAux_safe (s : Str) (h : ∀ c ∈ s, safeChar c = true) :
    splitCSVLineAux s false = [s] := by
  induction s with
  | nil => rfl
  | cons c t ih =>
    obtain ⟨-, hcc, hq, -, -⟩ := safeChar_spec c (h c (by simp))
    rw [splitCSVLineAux_cons_safe c t hq hcc,
      ih (fun d hd => h d (by simp [hd]))]
    rfl

/-- A `date,score` line with safe fields splits into exactly those two
fields. -/
theorem splitCSVLine_pair (d s : Str) (hd : ∀ c ∈ d, safeChar c = true)
    (hs : ∀ c ∈ s, safeChar c = true) :
    splitCSVLine (d ++ ',' :: s) = [d, s] := by
  unfold splitCSVLine
  induction d with
  | nil =>
    show splitCSVLineAux (',' :: s) false = [[], s]
    rw [show splitCSVLineAux (',' :: s) false
        = [] :: splitCSVLineAux s false from rfl,
      splitCSVLineAux_safe s hs]
  | cons c t ih =>
    obtain ⟨-, hcc, hq, -, -⟩ := safeChar_spec c (hd c (by simp))
    rw [List.cons_append, splitCSVLineAux_cons_safe c _ hq hcc,
      ih (fun x hx => hd x (by simp [hx]))]
    rfl

/-- A line splitter step on a character that is no line break. -/
theorem splitLinesJS_cons_safe (c : Char) (s : Str)
    (hn : c ≠ '\n') (hr : c ≠ '\r') :
    splitLinesJS (c :: s) = consHead c (splitLinesJS s) := by
  rw [splitLinesJS.eq_def]
  split <;> simp_all

/-- Text without line breaks is one single line. -/
theorem splitLinesJS_no_break (s : Str)
    (h : ∀ c ∈ s, c ≠ '\n' ∧ c ≠ '\r') : splitLinesJS s = [s] := by
  induction s with
  | nil => rfl
  | cons c t ih =>
    obtain ⟨hn, hr⟩ := h c (by simp)
    rw [splitLinesJS_cons_safe c t hn hr, ih (fun d hd => h d (by simp [hd]))]
    rfl

/-- Splitting after a break-free prefix peels that prefix off as the first
line. -/
theorem splitLinesJS_append (p s : Str)
    (hp : ∀ c ∈ p, c ≠ '\n' ∧ c ≠ '\r') :
    splitLinesJS (p ++ '\n' :: s) = p :: splitLinesJS s := by
  induction p with
  | nil =>
    show splitLinesJS ('\n' :: s) = [] :: splitLinesJS s
    rfl
  | cons c t ih =>
    obtain ⟨hn, hr⟩ := hp c (by simp)
    rw [List.cons_append, splitLinesJS_cons_safe c _ hn hr,
      ih (fun d hd => hp d (by simp [hd]))]
    rfl

/-- Splitting inverts joining for break-free pieces. -/
theorem splitLinesJS_joinLines (ps : List Str)
    (h : ∀ p ∈ ps, ∀ c ∈ p, c ≠ '\n' ∧ c ≠ '\r') (hne : ps ≠ []) :
    splitLinesJS (joinLines ps) = ps := by
  induction ps with
  | nil => exact absurd rfl hne
  | cons x xs ih =>
    cases xs with
    | nil => exact splitLinesJS_no_break x (h x (by simp))
    | cons y ys =>
      rw [show joinLines (x :: y :: ys) = x ++ '\n' :: joinLines (y :: ys)
          from rfl,
        splitLinesJS_append x _ (h x (by simp)),
        ih (fun p hp => h p (by simp [hp])) (by simp)]

/-- `trim` is the identity on a string whose two ends are not whitespace. -/
theorem trimJS_eq_self (s : Str)
    (h1 : ∀ c, s.head? = some c → jsWS c = false)
    (h2 : ∀ c, s.getLast? = some c → jsWS c = false) : trimJS s = s := by
  cases s with
  | nil => rfl
  | cons a t =>
    have ha : jsWS a = false := h1 a rfl
    have hdrop : (a :: t).dropWhile jsWS = a :: t :=
      List.dropWhile_cons_of_neg (by simp [ha])
    rw [trimJS, hdrop]
    rcases List.eq_nil_or_concat (a :: t) with hnil | ⟨L, b, hLb⟩
    · simp at hnil
    · have hb : jsWS b = false := h2 b (by
        rw [hLb, List.concat_eq_append, List.getLast?_concat])
      rw [hLb, List.concat_eq_append, List.reverse_append]
      simp only [List.reverse_cons, List.reverse_nil, List.nil_append,
        List.singleton_append]
      rw [List.dropWhile_cons_of_neg (by simp [hb])]
      simp

/-- The last line of a join is the last piece, when that piece is
non-empty. -/
theorem joinLines_getLast (ps : List Str) (t : Str) (ht : t ≠ [])
    (hlast : ps.getLast? = some t) :
    (joinLines ps).getLast? = t.getLast? := by
  induction ps with
  | nil => simp at hlast
  | cons x xs ih =>
    cases xs with
    | nil =>
      simp only [List.getLast?_singleton, Option.some_inj] at hlast
      subst hlast
      rfl
    | cons y ys =>
      have h' : (y :: ys).getLast? = some t := by
        rwa [List.getLast?_cons_cons] at hlast
      have hrec := ih h'
      have hjoin_ne : joinLines (y :: ys) ≠ [] := by
        intro hj
        rw [hj] at hrec
        rw [show ([] : Str).getLast? = none from rfl] at hrec
        exact ht (List.getLast?_eq_none_iff.1 hrec.symm)
      rw [show joinLines (x :: y :: ys) = x ++ '\n' :: joinLines (y :: ys)
          from rfl,
        List.getLast?_append]
      obtain ⟨z, zs, hz⟩ := List.exists_cons_of_ne_nil hjoin_ne
      rw [hz, List.getLast?_cons_cons, ← hz, hrec]
      have : t.getLast? ≠ none := fun hc =>
        ht (List.getLast?_eq_none_iff.1 hc)
      cases hcase : t.getLast? with
      | none => exact absurd hcase this
      | some w => rfl

/-- An exported line is never empty. -/
theorem lineOfRow_ne_nil (r : ExportRow) : lineOfRow r ≠ [] := by
  rw [lineOfRow]
  intro hc
  have := congrArg List.length hc
  simp at this

/-- The last character of an exported line is never whitespace when the
score is made of safe characters (an empty score leaves the comma last). -/
theorem lineOfRow_getLast_safe (r : ExportRow)
    (hs : ∀ c ∈ r.score, safeChar c = true) :
    ∀ c, (lineOfRow r).getLast? = some c → jsWS c = false := by
  intro c hc
  rw [lineOfRow, List.getLast?_append] at hc
  rcases List.eq_nil_or_concat r.score with hnil | ⟨zs, z, hz⟩
  · rw [hnil, show (([','] : Str).getLast?).or r.date.getLast?
        = some ',' from rfl] at hc
    obtain rfl := Option.some.inj hc
    rfl
  · rw [hz, List.concat_eq_append, ← List.cons_append,
      List.getLast?_concat,
      show (some z).or r.date.getLast? = some z from rfl] at hc
    obtain rfl := Option.some.inj hc
    exact (safeChar_spec z (hs z (by simp [hz]))).1

/-- Trimming the exported CSV changes nothing: it starts with `D` and ends
with a safe character or the comma of the last line. -/
theorem trim_exportCSV (rows : List ExportRow)
    (hs : ∀ r ∈ rows, ∀ c ∈ r.score, safeChar c = true) :
    trimJS (exportCSV rows) = exportCSV rows := by
  apply trimJS_eq_self
  · intro c hc
    cases rows with
    | nil =>
      rw [show (exportCSV []).head? = some 'D' from rfl] at hc
      cases hc
      rfl
    | cons r rs =>
      rw [show (exportCSV (r :: rs)).head? = some 'D' from rfl] at hc
      cases hc
      rfl
  · intro c hc
    rcases List.eq_nil_or_concat rows with hnil | ⟨rs, r, hr⟩
    · subst hnil
      rw [show (exportCSV []).getLast? = some 'e' from rfl] at hc
      cases hc
      rfl
    · have hlast : ("Date,Sentiment score".data ::
          (rows.map lineOfRow)).getLast? = some (lineOfRow r) := by
        have hsplit : "Date,Sentiment score".data ::
            (List.map lineOfRow rs ++ [lineOfRow r])
            = ("Date,Sentiment score".data :: List.map lineOfRow rs) ++
              [lineOfRow r] := by simp
        rw [hr, List.concat_eq_append, List.map_append,
          show List.map lineOfRow [r] = [lineOfRow r] from rfl, hsplit,
          List.getLast?_concat]
      rw [exportCSV, joinLines_getLast _ _ (lineOfRow_ne_nil r) hlast] at hc
      exact lineOfRow_getLast_safe r
        (hs r (by rw [hr, List.concat_eq_append]; simp)) c hc

/-- The header line splits into the two column names. -/
theorem header_fields :
    splitCSVLine "Date,Sentiment score".data
      = ["Date".data, "Sentiment score".data] := by
  decide

/-- Parsing the exported text: the headers are the two export columns and
there is one record per exported row, in order. -/
theorem parseCSV_export (rows : List ExportRow)
    (h : ∀ r ∈ rows, (∀ c ∈ r.date, safeChar c = true)
      ∧ (∀ c ∈ r.score, safeChar c = true)) :
    parseCSV (exportCSV rows)
      = (["Date".data, "Sentiment score".data],
         rows.map fun r =>
           csvRecord ["Date".data, "Sentiment score".data] (lineOfRow r)) := by
  have hnb : ∀ p ∈ "Date,Sentiment score".data :: rows.map lineOfRow,
      ∀ c ∈ p, c ≠ '\n' ∧ c ≠ '\r' := by
    intro p hp c hcp
    rcases List.mem_cons.1 hp with rfl | hp
    · have hhdr : ∀ x ∈ "Date,Sentiment score".data,
          x ≠ '\n' ∧ x ≠ '\r' := by decide
      exact hhdr c hcp
    · obtain ⟨r, hr, rfl⟩ := List.mem_map.1 hp
      rw [lineOfRow] at hcp
      rcases List.mem_append.1 hcp with hcd | hcs
      · obtain ⟨-, -, -, hn, hrr⟩ := safeChar_spec c ((h r hr).1 c hcd)
        exact ⟨hn, hrr⟩
      · rcases List.mem_cons.1 hcs with rfl | hcs
        · exact ⟨by decide, by decide⟩
        · obtain ⟨-, -, -, hn, hrr⟩ := safeChar_spec c ((h r hr).2 c hcs)
          exact ⟨hn, hrr⟩
  rw [parseCSV.eq_def, trim_exportCSV rows (fun r hr => (h r hr).2),
    exportCSV, splitLinesJS_joinLines _ hnb (by simp)]
  have hfilter : (rows.map lineOfRow).filter (· ≠ []) = rows.map lineOfRow :=
    List.filter_eq_self.2 (by
      intro a ha
      obtain ⟨r, -, rfl⟩ := List.mem_map.1 ha
      simpa using lineOfRow_ne_nil r)
  simp only [hfilter, List.map_map, Function.comp_def]
  rfl

/-- The record built from one exported line maps the two export columns to
the row's two fields. -/
theorem csvRecord_line (r : ExportRow)
    (hd : ∀ c ∈ r.date, safeChar c = true)
    (hs : ∀ c ∈ r.score, safeChar c = true) :
    csvRecord ["Date".data, "Sentiment score".data] (lineOfRow r)
      = [("Date".data, r.date), ("Sentiment score".data, r.score)] := by
  rw [csvRecord.eq_def]
  rw [show splitCSVLine (lineOfRow r) = [r.date, r.score] from
    splitCSVLine_pair r.date r.score hd hs]
  rfl

/-- Reading the `Date` column of a parsed export record recovers the date. -/
theorem recordGet_date (d s : Str) :
    recordGet [("Date".data, d), ("Sentiment score".data, s)] "Date".data
      = some d := by
  rfl

/-- Reading the `sentiment` column of a parsed export record finds nothing:
neither export header lower-cases to `sentiment`. -/
theorem recordGet_sentiment (d s : Str) :
    recordGet [("Date".data, d), ("Sentiment score".data, s)]
      "sentiment".data = none := by
  rfl

/-- C5 (amended): exporting rows whose fields are made of safe characters
(as every real `YYYY-MM-DD` date and `0/1/2` score is) and parsing the CSV
back yields one row per exported row in order with the original dates
recovered — but every score comes back `undefined`, because the export
header `Sentiment score` never matches the parser's case-insensitive
`sentiment` column lookup.  The `{date, score}` pairs are *not*
reproduced. -/
theorem csvRoundTripDates (rows : List ExportRow)
    (h : ∀ r ∈ rows, (∀ c ∈ r.date, safeChar c = true)
      ∧ (∀ c ∈ r.score, safeChar c = true)) :
    roundTripCSV rows = rows.map fun r => ⟨some r.date, none⟩ := by
  rw [roundTripCSV.eq_def, parseCSV_export rows h]
  rw [csvToRows.eq_def]
  rw [show (["Date".data, "Sentiment score".data].find? fun hh =>
      toLowerJS hh = "date".data) = some "Date".data from by decide]
  rw [show (["Date".data, "Sentiment score".data].find? fun hh =>
      toLowerJS hh = "sentiment".data) = none from by decide]
  simp only [Option.getD_some, Option.getD_none, List.map_map,
    Function.comp_def]
  apply List.map_congr_left
  intro r hr
  rw [csvRecord_line r (h r hr).1 (h r hr).2, recordGet_date,
    recordGet_sentiment]

/-- Witness for C5 at one concrete row. -/
theorem csvRoundTripDatesWitness :
    roundTripCSV [⟨"2024-01-01".data, "1".data⟩]
      = [⟨some "2024-01-01".data, none⟩] :=
  csvRoundTripDates [⟨"2024-01-01".data, "1".data⟩] (by decide)

/-- C5 (counterexample): round-tripping the single row
`{date: 2024-01-01, score: 1}` loses the score — the parsed row is
`{date: some 2024-01-01, score: undefined}`, not the original pair. -/
theorem csvRoundTripCounterexample :
    roundTripCSV [⟨"2024-01-01".data, "1".data⟩]
      = [⟨some "2024-01-01".data, none⟩]
    ∧ roundTripCSV [⟨"2024-01-01".data, "1".data⟩]
      ≠ [⟨some "2024-01-01".data, some "1".data⟩] := by
  decide

end Theorems

end NSS
